import Mathlib

/-!
Shallow embedding of the vinylscrobbles core (duplicate detector,
Last.fm scrobble queue, and their database operations) together with
proofs about the specified properties.

Strings are modelled as `List Char`; Python `str.lower` is modelled by
`Char.toLower` (they agree on ASCII, which is the fragment the
normalisation code manipulates).  Timestamps (`int(time.time())`) are
explicit `ℤ` parameters, similarity scores are `ℚ`.
-/

namespace Vinyl

/-! ### String normalisation (`DuplicateDetector._normalize_string`) -/

/-- Python `str.lower`, per character (ASCII fragment). -/
def pyLower (c : Char) : Char := c.toLower

/-- Python `s.replace(c, rep)` for a single-character pattern `c`:
left-to-right substitution of every occurrence of `c` by `rep`. -/
def replaceChar (c : Char) (rep : List Char) : List Char → List Char
  | [] => []
  | d :: rest => if d = c then rep ++ replaceChar c rep rest else d :: replaceChar c rep rest

/-- Python `s.replace('  ', ' ')`: one left-to-right, non-overlapping pass
replacing each double space by a single space. -/
def collapseOnce : List Char → List Char
  | [] => []
  | [c] => [c]
  | c₁ :: c₂ :: rest =>
    if c₁ = ' ' ∧ c₂ = ' ' then ' ' :: collapseOnce rest
    else c₁ :: collapseOnce (c₂ :: rest)

/-- Python `'  ' in s`: does `s` contain two adjacent spaces? -/
def hasDoubleSpace : List Char → Bool
  | c₁ :: c₂ :: rest => (decide (c₁ = ' ') && decide (c₂ = ' ')) || hasDoubleSpace (c₂ :: rest)
  | _ => false

/-- The `while '  ' in normalized: normalized = normalized.replace('  ', ' ')`
loop, with explicit fuel.  Each iteration that fires strictly shrinks the
string, so `s.length + 1` fuel always reaches the fixed point. -/
def collapseLoop : Nat → List Char → List Char
  | 0, s => s
  | fuel + 1, s => if hasDoubleSpace s then collapseLoop fuel (collapseOnce s) else s

/-- The character set of `strip(' .,!?-_()[]{}"\'\t\n\r')` in the source. -/
def stripChars : List Char :=
  [' ', '.', ',', '!', '?', '-', '_', '(', ')', '[', ']', '\x7b', '\x7d', '"', '\'', '\t', '\n', '\r']

/-- Python `str.lstrip` with the `stripChars` set. -/
def pyLstrip (s : List Char) : List Char := s.dropWhile (fun c => c ∈ stripChars)

/-- Python `str.strip` with the `stripChars` set: drop the edge characters
from both ends. -/
def pyStrip (s : List Char) : List Char := ((pyLstrip s).reverse.dropWhile (fun c => c ∈ stripChars)).reverse

/-- `DuplicateDetector._normalize_string`, step for step:
lowercase; replace `&`, `+` by `and`; one `'  ' -> ' '` pass; tabs,
newlines, carriage returns to spaces; strip edge punctuation/whitespace;
collapse remaining double spaces to single ones. -/
def normalizeChars (s : List Char) : List Char :=
  if s = [] then []
  else
    let n1 := s.map pyLower
    let n2 := replaceChar '&' ['a', 'n', 'd'] n1
    let n3 := replaceChar '+' ['a', 'n', 'd'] n2
    let n4 := collapseOnce n3
    let n5 := replaceChar '\t' [' '] n4
    let n6 := replaceChar '\n' [' '] n5
    let n7 := replaceChar '\r' [' '] n6
    let n8 := pyStrip n7
    collapseLoop (n8.length + 1) n8

/-- `_normalize_string` on Lean strings. -/
def normalizeString (s : String) : String := String.mk (normalizeChars s.data)

/-! ### A compositional normal form for `normalizeChars`

The proofs below show `normalizeChars` equals this pipeline: lowercase,
fold `&`/`+` to `and`, fold whitespace characters to spaces, strip the
edges, collapse every space run.  All invariance statements are proved
against this normal form. -/

/-- Per-character folding of `&` and `+` to `and` (the combined effect of
the two `replace` calls). -/
def andFold (c : Char) : List Char :=
  if c = '&' then ['a', 'n', 'd'] else if c = '+' then ['a', 'n', 'd'] else [c]

/-- Per-character folding of tab/newline/carriage return to a space (the
combined effect of the three whitespace `replace` calls). -/
def wsFold (c : Char) : List Char :=
  if c = '\t' then [' '] else if c = '\n' then [' '] else if c = '\r' then [' '] else [c]

/-- Collapse every maximal run of spaces to a single space. -/
def collapseRuns : List Char → List Char
  | [] => []
  | c :: rest =>
    if c = ' ' then ' ' :: collapseRuns (rest.dropWhile (fun d => d = ' '))
    else c :: collapseRuns rest
termination_by s => s.length
decreasing_by
  · simpa using Nat.lt_succ_of_le (List.dropWhile_sublist _).length_le
  · simp

/-- The canonical pipeline; `normalize_eq_canon` proves it equal to
`normalizeChars`. -/
def canonChars (s : List Char) : List Char :=
  collapseRuns (pyStrip (((s.map pyLower).flatMap andFold).flatMap wsFold))

/-- `n` spaces. -/
def spaces (n : Nat) : List Char := List.replicate n ' '

/-- Two strings are `SpaceEq` when they agree up to the lengths of their
(nonempty) space runs. -/
inductive SpaceEq : List Char → List Char → Prop
  | nil : SpaceEq [] []
  | char {a b : List Char} (c : Char) (hc : c ≠ ' ') : SpaceEq a b → SpaceEq (c :: a) (c :: b)
  | run {a b : List Char} (m n : Nat) : SpaceEq a b →
      SpaceEq (spaces (m + 1) ++ a) (spaces (n + 1) ++ b)

/-! ### Data model

`RecognitionResult` is the dataclass produced by `music_recognizer.py`
(not shipped under `src/`); its shape is modelled from the spec §3
(`success`, `confidence`, `artist`, `title`, optional `album`, optional
`duration`, `provider`, optional error) and from the constructor calls in
the code.  Python's falsy `''`/`None` for artist/title collapse to `""`
here; `duration` is `Option ℤ` (with `some 0` still falsy in Python,
which the code relies on). -/

/-- Modelled from the spec: the immutable recognition outcome handed to
the duplicate detector and the scrobbler (`music_recognizer.RecognitionResult`,
whose module is not part of the sources). -/
structure RecognitionResult where
  success : Bool
  confidence : ℚ
  provider : String
  artist : String
  title : String
  album : Option String
  duration : Option ℤ
deriving DecidableEq, Repr

/-- A row of the `duplicate_cache` table (`database.DuplicateEntry` plus
the stored `expires_at` column). -/
structure DupRow where
  fingerprint : String
  artist : String
  title : String
  timestamp : ℤ
  confidence : ℚ
  expiresAt : ℤ
deriving DecidableEq, Repr

/-- The fields of a `scrobble_history` row used by the duplicate scan
(`artist`, `title`, `scrobbled_at`). -/
structure HistRow where
  artist : String
  title : String
  scrobbledAt : ℤ
deriving DecidableEq, Repr

/-- A row of the `scrobble_queue` table (`database.ScrobbleEntry`). -/
structure QueueRow where
  id : Nat
  artist : String
  title : String
  album : Option String
  timestamp : Option ℤ
  duration : Option ℤ
  retryCount : Nat
  createdAt : ℤ
deriving DecidableEq, Repr

/-- The durable store.  `scrobbleQueue` is kept in insertion order
(`created_at` is the monotone insertion time, so `ORDER BY created_at ASC`
is the stored order); `history` is kept most-recent-first (`add_to_history`
stamps `scrobbled_at = now`, so `ORDER BY scrobbled_at DESC` is the stored
order); `duplicateCache` has unique fingerprints maintained by upsert. -/
structure DBState where
  duplicateCache : List DupRow
  scrobbleQueue : List QueueRow
  history : List HistRow
  nextId : Nat
deriving DecidableEq, Repr

/-- The empty database. -/
def DBState.empty : DBState := ⟨[], [], [], 1⟩

/-! ### Database operations (`database.DatabaseManager`) -/

/-- `find_duplicate`: the unexpired `duplicate_cache` row with the given
fingerprint (`WHERE fingerprint = ? AND expires_at > now`). -/
def findDuplicate (now : ℤ) (fp : String) (db : DBState) : Option DupRow :=
  db.duplicateCache.find? (fun row => row.fingerprint = fp ∧ now < row.expiresAt)

/-- `add_duplicate_entry`: `INSERT OR REPLACE` keyed by the unique
fingerprint, with `expires_at = now + ttl`. -/
def addDuplicateEntry (now ttl : ℤ) (fingerprint artist title : String) (timestamp : ℤ)
    (confidence : ℚ) (db : DBState) : DBState :=
  { db with duplicateCache :=
      ⟨fingerprint, artist, title, timestamp, confidence, now + ttl⟩ ::
        db.duplicateCache.filter (fun row => row.fingerprint ≠ fingerprint) }

/-- `get_recent_scrobbles`: first `limit` rows of the history in
`scrobbled_at DESC` order (the stored order, see `DBState`). -/
def getRecentScrobbles (limit : Nat) (db : DBState) : List HistRow :=
  db.history.take limit

/-- `add_to_history` with `scrobbled_at = now`. -/
def addToHistory (now : ℤ) (artist title : String) (db : DBState) : DBState :=
  { db with history := ⟨artist, title, now⟩ :: db.history }

/-- `get_scrobble_queue`: first `limit` entries in `created_at ASC`
(insertion) order. -/
def getScrobbleQueue (limit : Nat) (db : DBState) : List QueueRow :=
  db.scrobbleQueue.take limit

/-- `remove_from_scrobble_queue`. -/
def removeFromScrobbleQueue (entryId : Nat) (db : DBState) : DBState :=
  { db with scrobbleQueue := db.scrobbleQueue.filter (fun e => e.id ≠ entryId) }

/-- `increment_retry_count`: `SET retry_count = retry_count + 1 WHERE id = ?`. -/
def incrementRetryCount (entryId : Nat) (db : DBState) : DBState :=
  { db with scrobbleQueue :=
      db.scrobbleQueue.map (fun e => if e.id = entryId then { e with retryCount := e.retryCount + 1 } else e) }

/-- `get_queue_size`: `SELECT COUNT(*) FROM scrobble_queue`. -/
def getQueueSize (db : DBState) : Nat := db.scrobbleQueue.length

/-- `add_to_scrobble_queue` at time `now` (`created_at = now`, and
`timestamp = created_at` when absent); the fresh SQLite row id is
`db.nextId`. -/
def addToScrobbleQueue (now : ℤ) (artist title : String) (album : Option String)
    (timestamp : Option ℤ) (duration : Option ℤ) (db : DBState) : DBState × Nat :=
  let entry : QueueRow :=
    ⟨db.nextId, artist, title, album, some (timestamp.getD now), duration, 0, now⟩
  ({ db with scrobbleQueue := db.scrobbleQueue ++ [entry], nextId := db.nextId + 1 }, db.nextId)

/-! ### Duplicate detector (`duplicate_detector.DuplicateDetector`)

The SHA-256 of `hashlib` and the `difflib.SequenceMatcher.ratio` are
external library calls; they enter the model as opaque parameters
`hash : String → String` and `ratio : String → String → ℚ`. -/

/-- The `duplicate_detection` configuration values used by the detector. -/
structure DetectorConfig where
  enabled : Bool
  timeWindow : ℤ
  similarityThreshold : ℚ
deriving DecidableEq, Repr

/-- The result dataclass `DuplicateCheck`. -/
structure DuplicateCheck where
  isDuplicate : Bool
  confidence : ℚ
  timeSinceLast : Option ℤ
  similarTrack : Option (String × String)
  fingerprint : Option String
deriving DecidableEq, Repr

/-- Python `round(duration / 5) * 5` for an integer number of seconds
(`duration / 5` is never a half-integer, so round-half-to-even never
fires its tie case). -/
def durationBucket (d : ℤ) : ℤ :=
  if d % 5 ≤ 2 then 5 * (d / 5) else 5 * (d / 5) + 5

/-- The pre-hash fingerprint payload
`f"{artist}|{title}|{album}"` plus `f"|{duration_rounded}"` when the
duration is truthy. -/
def fingerprintData (r : RecognitionResult) : String :=
  let artist := String.mk (normalizeChars r.artist.data)
  let title := String.mk (normalizeChars r.title.data)
  let album := String.mk (normalizeChars (r.album.getD "").data)
  let base := artist ++ "|" ++ title ++ "|" ++ album
  match r.duration with
  | some d => if d = 0 then base else base ++ "|" ++ toString (durationBucket d)
  | none => base

/-- `_create_fingerprint`: hash of the normalized payload (`hash` stands
for the truncated SHA-256). -/
def createFingerprint (hash : String → String) (r : RecognitionResult) : String :=
  hash (fingerprintData r)

/-- `_calculate_similarity`: `0.7 * titleSimilarity + 0.3 * artistSimilarity`
on normalized strings, `ratio` standing for `SequenceMatcher.ratio`. -/
def calculateSimilarity (ratio : String → String → ℚ)
    (artist1 title1 artist2 title2 : String) : ℚ :=
  let artist1n := String.mk (normalizeChars artist1.data)
  let title1n := String.mk (normalizeChars title1.data)
  let artist2n := String.mk (normalizeChars artist2.data)
  let title2n := String.mk (normalizeChars title2.data)
  ratio title1n title2n * (7 / 10) + ratio artist1n artist2n * (3 / 10)

/-- The scan inside `_check_similar_tracks`: walk the recent scrobbles in
the given (descending recency) order, skip entries older than the cutoff,
return the first candidate whose similarity reaches the threshold. -/
def scanSimilar (cfg : DetectorConfig) (ratio : String → String → ℚ) (now : ℤ)
    (r : RecognitionResult) (fp : String) : List HistRow → DuplicateCheck
  | [] => ⟨false, 0, none, none, some fp⟩
  | s :: rest =>
    if s.scrobbledAt < now - cfg.timeWindow then scanSimilar cfg ratio now r fp rest
    else
      let sim := calculateSimilarity ratio r.artist r.title s.artist s.title
      if cfg.similarityThreshold ≤ sim then
        ⟨true, sim, some (now - s.scrobbledAt), some (s.artist, s.title), some fp⟩
      else scanSimilar cfg ratio now r fp rest

/-- Store failures surfaced by the database layer. -/
structure DBError where
  message : String
deriving DecidableEq, Repr

/-- `_check_similar_tracks` with its two store reads made explicit:
`get_recent_stats` (whose result the code never uses) and
`get_recent_scrobbles`, each of which may raise. -/
def checkSimilarTracksExc (cfg : DetectorConfig) (ratio : String → String → ℚ) (now : ℤ)
    (stats : Except DBError Unit) (recents : Except DBError (List HistRow))
    (r : RecognitionResult) (fp : String) : Except DBError DuplicateCheck :=
  match stats with
  | .error e => .error e
  | .ok _ =>
    match recents with
    | .error e => .error e
    | .ok l => .ok (scanSimilar cfg ratio now r fp l)

/-- `is_duplicate` with the store calls abstracted as fallible inputs
(`findDup` for `find_duplicate`, then the two reads of
`_check_similar_tracks`).  The method installs no exception handler, so
a raised store error is propagated as `.error`. -/
def isDuplicateExc (cfg : DetectorConfig) (ratio : String → String → ℚ)
    (hash : String → String) (now : ℤ)
    (findDup : String → Except DBError (Option DupRow))
    (stats : Except DBError Unit) (recents : Except DBError (List HistRow))
    (r : RecognitionResult) : Except DBError DuplicateCheck :=
  if cfg.enabled = false then .ok ⟨false, 0, none, none, none⟩
  else if r.success = false ∨ r.artist = "" ∨ r.title = "" then .ok ⟨false, 0, none, none, none⟩
  else
    let fp := createFingerprint hash r
    match findDup fp with
    | .error e => .error e
    | .ok (some row) =>
      .ok ⟨true, 1, some (now - row.timestamp), some (row.artist, row.title), some fp⟩
    | .ok none => checkSimilarTracksExc cfg ratio now stats recents r fp

/-- `is_duplicate` against an in-memory store (every store call
succeeds; `get_recent_scrobbles` is called with `limit=100`). -/
def isDuplicate (cfg : DetectorConfig) (ratio : String → String → ℚ)
    (hash : String → String) (now : ℤ) (db : DBState)
    (r : RecognitionResult) : DuplicateCheck :=
  match isDuplicateExc cfg ratio hash now
      (fun fp => .ok (findDuplicate now fp db)) (.ok ()) (.ok (getRecentScrobbles 100 db)) r with
  | .ok c => c
  | .error _ => ⟨false, 0, none, none, none⟩

/-- `add_track`: refuse when disabled or unsuccessful, otherwise upsert a
`DuplicateEntry` with `timestamp = now` and TTL `timeWindow`. -/
def addTrack (cfg : DetectorConfig) (hash : String → String) (now : ℤ)
    (db : DBState) (r : RecognitionResult) : DBState × Bool :=
  if cfg.enabled = false ∨ r.success = false then (db, false)
  else
    let fp := createFingerprint hash r
    (addDuplicateEntry now cfg.timeWindow fp r.artist r.title now r.confidence db, true)

/-! ### Last.fm scrobbler (`lastfm_scrobbler.LastFMScrobbler`) -/

/-- The `scrobbling.lastfm` configuration values used by the queue. -/
structure ScrobblerConfig where
  minPlayTime : ℤ
  maxQueueSize : Nat
  maxRetries : Nat
deriving DecidableEq, Repr

/-- The result dataclass `ScrobbleResult`. -/
structure ScrobbleResult where
  success : Bool
  entryId : Option Nat
  errorMessage : Option String
  shouldRetry : Bool
deriving DecidableEq, Repr

/-- Outcome of one call to the external Last.fm sink: success, a
`pylast.WSError` with its optional error code, or any other exception
(network failure). -/
inductive SinkOutcome where
  | ok : SinkOutcome
  | wsError (errorCode : Option ℤ) (message : String) : SinkOutcome
  | exc (message : String) : SinkOutcome
deriving DecidableEq, Repr

/-- The `pylast.WSError` codes treated as permanent in `_attempt_scrobble`. -/
def permanentCodes : List ℤ := [2, 3, 4, 5, 6, 7, 9, 10, 13, 26]

/-- `should_retry` classification of a `WSError`:
`error_code not in permanentCodes` (a missing code is retried). -/
def wsShouldRetry (errorCode : Option ℤ) : Bool :=
  match errorCode with
  | some c => decide (c ∉ permanentCodes)
  | none => true

/-- `_attempt_scrobble`: validate artist/title, then the minimum play
time (`entry.duration and entry.duration < min_play_time`, so a `None`
or `0` duration skips the check), then call the sink and classify its
outcome.  The second component records whether the sink was called. -/
def attemptScrobble (cfg : ScrobblerConfig) (sink : SinkOutcome)
    (entry : QueueRow) : ScrobbleResult × Bool :=
  if entry.artist = "" ∨ entry.title = "" then
    (⟨false, none, some "Missing artist or title", false⟩, false)
  else if (match entry.duration with
           | some d => decide (¬ d = 0) && decide (d < cfg.minPlayTime)
           | none => false) then
    (⟨false, none, some "Track too short", false⟩, false)
  else
    match sink with
    | .ok => (⟨true, some entry.id, none, false⟩, true)
    | .wsError code msg => (⟨false, none, some msg, wsShouldRetry code⟩, true)
    | .exc msg => (⟨false, none, some msg, true⟩, true)

/-- One entry of the drain loop body in `_process_scrobble_queue`:
success removes the entry and appends to history; a retryable failure
with `retry_count < max_retries` increments the retry count; anything
else removes the entry. -/
def processEntry (cfg : ScrobblerConfig) (now : ℤ) (sinkFor : QueueRow → SinkOutcome)
    (db : DBState) (entry : QueueRow) : DBState :=
  let result := (attemptScrobble cfg (sinkFor entry) entry).1
  if result.success then
    addToHistory now entry.artist entry.title (removeFromScrobbleQueue entry.id db)
  else if result.shouldRetry && decide (entry.retryCount < cfg.maxRetries) then
    incrementRetryCount entry.id db
  else
    removeFromScrobbleQueue entry.id db

/-- One drain cycle of `_process_scrobble_queue`: read a batch of up to
50 queued entries once, then process each in order (`available` is
`is_available()`). -/
def processScrobbleQueue (cfg : ScrobblerConfig) (available : Bool) (now : ℤ)
    (sinkFor : QueueRow → SinkOutcome) (db : DBState) : DBState :=
  if available = false then db
  else (getScrobbleQueue 50 db).foldl (processEntry cfg now sinkFor) db

/-- `queue_scrobble`: refuse failed or artist/title-less results, refuse
when the queue is full (`size >= max_queue_size`), otherwise persist a
new entry (`timestamp or now` — a falsy explicit timestamp also falls
back to `now`). -/
def queueScrobble (cfg : ScrobblerConfig) (now : ℤ) (db : DBState)
    (r : RecognitionResult) (timestamp : Option ℤ) : DBState × Bool :=
  if r.success = false then (db, false)
  else if r.artist = "" ∨ r.title = "" then (db, false)
  else if cfg.maxQueueSize ≤ getQueueSize db then (db, false)
  else
    let ts : ℤ := match timestamp with
      | some t => if t = 0 then now else t
      | none => now
    ((addToScrobbleQueue now r.artist r.title r.album (some ts) r.duration db).1, true)

/-! ### The metadata variations of the fingerprint-equality property -/

/-- One primitive variation of a metadata string: a letter-case change, a
`&` vs `+` vs `and` substitution, a whitespace run against a single
space, or added leading/trailing punctuation/whitespace (the `strip`
character set). -/
inductive VariantStep : List Char → List Char → Prop
  | caseFold (s t : List Char) : s.map pyLower = t.map pyLower → VariantStep s t
  | ampPlus (u v : List Char) : VariantStep (u ++ '&' :: v) (u ++ '+' :: v)
  | ampAnd (u v : List Char) : VariantStep (u ++ '&' :: v) (u ++ 'a' :: 'n' :: 'd' :: v)
  | wsRun (u w v : List Char) (hw : w ≠ [])
      (hws : ∀ c ∈ w, c = ' ' ∨ c = '\t' ∨ c = '\n' ∨ c = '\r') :
      VariantStep (u ++ w ++ v) (u ++ ' ' :: v)
  | edges (p s q : List Char) (hp : ∀ c ∈ p, c ∈ stripChars) (hq : ∀ c ∈ q, c ∈ stripChars) :
      VariantStep (p ++ s ++ q) s

/-- Two strings differ only by the listed variations: the equivalence
closure of the primitive steps. -/
def MetadataVariant (s t : String) : Prop := Relation.EqvGen VariantStep s.data t.data

/-- Spec-side description of the fuzzy scan: the first candidate (in the
scanned order) that is inside the time window and reaches the
similarity threshold. -/
def firstQualifying (cfg : DetectorConfig) (ratio : String → String → ℚ) (now : ℤ)
    (r : RecognitionResult) (l : List HistRow) : Option HistRow :=
  l.find? (fun s =>
    decide (now - cfg.timeWindow ≤ s.scrobbledAt) &&
    decide (cfg.similarityThreshold ≤ calculateSimilarity ratio r.artist r.title s.artist s.title))

/-! ### Lemmas: single-character replacement as `flatMap` -/

/-- The per-character substitution performed by `replaceChar`. -/
def charSub (c : Char) (rep : List Char) (d : Char) : List Char :=
  if d = c then rep else [d]

theorem replaceChar_eq_flatMap (c : Char) (rep : List Char) (s : List Char) :
    replaceChar c rep s = s.flatMap (charSub c rep) := by
  induction s with
  | nil => rfl
  | cons d rest ih =>
    by_cases h : d = c <;> simp [replaceChar, charSub, h, ih]

theorem and_replace_chain (s : List Char) :
    replaceChar '+' ['a', 'n', 'd'] (replaceChar '&' ['a', 'n', 'd'] s) = s.flatMap andFold := by
  rw [replaceChar_eq_flatMap, replaceChar_eq_flatMap, List.flatMap_assoc]
  refine List.flatMap_congr ?_
  intro d _
  by_cases h1 : d = '&'
  · subst h1; rfl
  · by_cases h2 : d = '+'
    · subst h2; rfl
    · simp [charSub, andFold, h1, h2]

theorem ws_replace_chain (s : List Char) :
    replaceChar '\r' [' '] (replaceChar '\n' [' '] (replaceChar '\t' [' '] s)) =
      s.flatMap wsFold := by
  rw [replaceChar_eq_flatMap, replaceChar_eq_flatMap, replaceChar_eq_flatMap,
    List.flatMap_assoc, List.flatMap_assoc]
  refine List.flatMap_congr ?_
  intro d _
  by_cases h1 : d = '\t'
  · subst h1; rfl
  · by_cases h2 : d = '\n'
    · subst h2; rfl
    · by_cases h3 : d = '\r'
      · subst h3; rfl
      · simp [charSub, wsFold, h1, h2, h3]

/-! ### Lemmas: `SpaceEq` and the space-collapsing functions -/

theorem spaces_succ_append (m : Nat) (a : List Char) :
    spaces (m + 1) ++ a = ' ' :: (spaces m ++ a) := by
  simp [spaces, List.replicate_succ]

theorem collapseRuns_nil : collapseRuns [] = [] := by
  rw [collapseRuns]

theorem collapseRuns_cons_space (rest : List Char) :
    collapseRuns (' ' :: rest) = ' ' :: collapseRuns (rest.dropWhile (fun d => d = ' ')) := by
  rw [collapseRuns]
  simp

theorem collapseRuns_cons_ne (c : Char) (hc : c ≠ ' ') (rest : List Char) :
    collapseRuns (c :: rest) = c :: collapseRuns rest := by
  rw [collapseRuns]
  simp [hc]

theorem dropWhile_spaces_append (p : Char → Bool) (hp : p ' ' = true) (k : Nat) (x : List Char) :
    (spaces k ++ x).dropWhile p = x.dropWhile p := by
  induction k with
  | zero => simp [spaces]
  | succ k ih =>
    rw [spaces_succ_append, List.dropWhile_cons_of_pos hp]
    exact ih

theorem SpaceEq.refl : ∀ s : List Char, SpaceEq s s
  | [] => .nil
  | c :: rest => by
    by_cases hc : c = ' '
    · subst hc
      have h : spaces 1 ++ rest = ' ' :: rest := by simp [spaces]
      rw [← h]
      exact .run 0 0 (SpaceEq.refl rest)
    · exact .char c hc (SpaceEq.refl rest)

theorem SpaceEq.symm {a b : List Char} (h : SpaceEq a b) : SpaceEq b a := by
  induction h with
  | nil => exact .nil
  | char c hc _ ih => exact .char c hc ih
  | run m n _ ih => exact .run n m ih

theorem SpaceEq.collapseRuns_eq {a b : List Char} (h : SpaceEq a b) :
    collapseRuns a = collapseRuns b ∧
      collapseRuns (a.dropWhile (fun d => d = ' ')) =
        collapseRuns (b.dropWhile (fun d => d = ' ')) := by
  induction h with
  | nil => exact ⟨rfl, rfl⟩
  | @char a' b' c hc _ ih =>
    have h1 : collapseRuns (c :: a') = collapseRuns (c :: b') := by
      rw [collapseRuns_cons_ne c hc, collapseRuns_cons_ne c hc, ih.1]
    refine ⟨h1, ?_⟩
    rw [List.dropWhile_cons_of_neg (by simpa using hc),
      List.dropWhile_cons_of_neg (by simpa using hc)]
    exact h1
  | run m n _ ih =>
    have key : ∀ (k : Nat) (x : List Char),
        collapseRuns (spaces (k + 1) ++ x) =
          ' ' :: collapseRuns (x.dropWhile (fun d => d = ' ')) := by
      intro k x
      rw [spaces_succ_append, collapseRuns_cons_space,
        dropWhile_spaces_append _ (by simp) k x]
    constructor
    · rw [key m _, key n _, ih.2]
    · rw [dropWhile_spaces_append _ (by simp) (m + 1), dropWhile_spaces_append _ (by simp) (n + 1)]
      exact ih.2

theorem SpaceEq.collapseRuns_congr {a b : List Char} (h : SpaceEq a b) :
    collapseRuns a = collapseRuns b := h.collapseRuns_eq.1

theorem SpaceEq.lstrip {a b : List Char} (h : SpaceEq a b) :
    SpaceEq (pyLstrip a) (pyLstrip b) := by
  induction h with
  | nil => exact .nil
  | char c hc h ih =>
    by_cases hmem : c ∈ stripChars
    · unfold pyLstrip at *
      rw [List.dropWhile_cons_of_pos (by simpa using hmem),
        List.dropWhile_cons_of_pos (by simpa using hmem)]
      exact ih
    · unfold pyLstrip at *
      rw [List.dropWhile_cons_of_neg (by simpa using hmem),
        List.dropWhile_cons_of_neg (by simpa using hmem)]
      exact .char c hc h
  | run m n _ ih =>
    unfold pyLstrip at *
    rw [dropWhile_spaces_append _ (by simp [stripChars]) (m + 1),
      dropWhile_spaces_append _ (by simp [stripChars]) (n + 1)]
    exact ih

theorem SpaceEq.append_char {a b : List Char} (c : Char) (hc : c ≠ ' ')
    (h : SpaceEq a b) : SpaceEq (a ++ [c]) (b ++ [c]) := by
  induction h with
  | nil => exact .char c hc .nil
  | char d hd _ ih => exact .char d hd ih
  | run m n _ ih =>
    rw [List.append_assoc, List.append_assoc]
    exact .run m n ih

theorem SpaceEq.append_spaces {a b : List Char} (m n : Nat)
    (h : SpaceEq a b) : SpaceEq (a ++ spaces (m + 1)) (b ++ spaces (n + 1)) := by
  induction h with
  | nil =>
    have h1 : spaces (m + 1) ++ ([] : List Char) = spaces (m + 1) := by simp
    have h2 : spaces (n + 1) ++ ([] : List Char) = spaces (n + 1) := by simp
    simpa [h1, h2] using SpaceEq.run m n .nil
  | char d hd _ ih => exact .char d hd ih
  | run m' n' _ ih =>
    rw [List.append_assoc, List.append_assoc]
    exact .run m' n' ih

theorem SpaceEq.rev {a b : List Char} (h : SpaceEq a b) :
    SpaceEq a.reverse b.reverse := by
  induction h with
  | nil => exact .nil
  | char c hc _ ih =>
    simpa using ih.append_char c hc
  | @run a' b' m n _ ih =>
    have hm : (spaces (m + 1) ++ a').reverse = a'.reverse ++ spaces (m + 1) := by
      simp [spaces, List.reverse_replicate]
    have hn : (spaces (n + 1) ++ b').reverse = b'.reverse ++ spaces (n + 1) := by
      simp [spaces, List.reverse_replicate]
    rw [hm, hn]
    exact ih.append_spaces m n

theorem SpaceEq.strip {a b : List Char} (h : SpaceEq a b) :
    SpaceEq (pyStrip a) (pyStrip b) := by
  have h1 : SpaceEq (pyLstrip a) (pyLstrip b) := h.lstrip
  have h2 := (h1.rev.lstrip).rev
  simpa [pyStrip, pyLstrip] using h2

theorem flatMap_wsFold_spaces (k : Nat) :
    (spaces k).flatMap wsFold = spaces k := by
  induction k with
  | zero => simp [spaces]
  | succ k ih =>
    have h : spaces (k + 1) = ' ' :: spaces k := by simp [spaces, List.replicate_succ]
    rw [h]
    simp only [List.flatMap_cons, ih]
    rfl

theorem SpaceEq.flatMap_wsFold {a b : List Char} (h : SpaceEq a b) :
    SpaceEq (a.flatMap wsFold) (b.flatMap wsFold) := by
  induction h with
  | nil => exact .nil
  | char c hc _ ih =>
    by_cases hws : c = '\t' ∨ c = '\n' ∨ c = '\r'
    · have hfold : wsFold c = [' '] := by
        rcases hws with h1 | h1 | h1 <;> simp [wsFold, h1]
      rw [List.flatMap_cons, List.flatMap_cons, hfold]
      have hsp : ∀ x : List Char, [' '] ++ x = spaces 1 ++ x := by intro x; simp [spaces]
      rw [hsp, hsp]
      exact .run 0 0 ih
    · push_neg at hws
      have hfold : wsFold c = [c] := by simp [wsFold, hws.1, hws.2.1, hws.2.2]
      rw [List.flatMap_cons, List.flatMap_cons, hfold]
      exact .char c hc ih
  | run m n _ ih =>
    rw [List.flatMap_append, List.flatMap_append, flatMap_wsFold_spaces, flatMap_wsFold_spaces]
    exact .run m n ih

theorem spaceEq_collapseOnce : ∀ s : List Char, SpaceEq s (collapseOnce s)
  | [] => .nil
  | [c] => by
    rw [collapseOnce]
    exact SpaceEq.refl [c]
  | c₁ :: c₂ :: rest => by
    rw [collapseOnce]
    by_cases h : c₁ = ' ' ∧ c₂ = ' '
    · rw [if_pos h]
      obtain ⟨h1, h2⟩ := h
      subst h1; subst h2
      have hl : (' ' :: ' ' :: rest : List Char) = spaces 2 ++ rest := by
        simp [spaces, List.replicate_succ]
      have hr : (' ' :: collapseOnce rest : List Char) = spaces 1 ++ collapseOnce rest := by
        simp [spaces]
      rw [hl, hr]
      exact .run 1 0 (spaceEq_collapseOnce rest)
    · rw [if_neg h]
      by_cases hc : c₁ = ' '
      · subst hc
        have hl : (' ' :: c₂ :: rest : List Char) = spaces 1 ++ (c₂ :: rest) := by simp [spaces]
        have hr : (' ' :: collapseOnce (c₂ :: rest) : List Char) =
            spaces 1 ++ collapseOnce (c₂ :: rest) := by simp [spaces]
        rw [hl, hr]
        exact .run 0 0 (spaceEq_collapseOnce (c₂ :: rest))
      · exact .char c₁ hc (spaceEq_collapseOnce (c₂ :: rest))

theorem collapseRuns_collapseOnce (s : List Char) :
    collapseRuns (collapseOnce s) = collapseRuns s :=
  ((spaceEq_collapseOnce s).symm).collapseRuns_congr

/-! ### Lemmas: the collapse loop computes `collapseRuns` -/

theorem collapseOnce_length_le : ∀ s : List Char, (collapseOnce s).length ≤ s.length
  | [] => by simp [collapseOnce]
  | [c] => by simp [collapseOnce]
  | c₁ :: c₂ :: rest => by
    rw [collapseOnce]
    by_cases h : c₁ = ' ' ∧ c₂ = ' '
    · rw [if_pos h]
      have := collapseOnce_length_le rest
      simp only [List.length_cons]
      omega
    · rw [if_neg h]
      have := collapseOnce_length_le (c₂ :: rest)
      simp only [List.length_cons] at *
      omega

theorem collapseOnce_length_lt : ∀ s : List Char, hasDoubleSpace s = true →
    (collapseOnce s).length < s.length
  | [], h => by simp [hasDoubleSpace] at h
  | [c], h => by simp [hasDoubleSpace] at h
  | c₁ :: c₂ :: rest, h => by
    rw [collapseOnce]
    by_cases hcc : c₁ = ' ' ∧ c₂ = ' '
    · rw [if_pos hcc]
      have := collapseOnce_length_le rest
      simp only [List.length_cons]
      omega
    · rw [if_neg hcc]
      have hdd : hasDoubleSpace (c₂ :: rest) = true := by
        rw [hasDoubleSpace] at h
        rcases Bool.or_eq_true_iff.mp h with h1 | h1
        · exact absurd ⟨of_decide_eq_true (Bool.and_eq_true_iff.mp h1).1,
            of_decide_eq_true (Bool.and_eq_true_iff.mp h1).2⟩ hcc
        · exact h1
      have := collapseOnce_length_lt (c₂ :: rest) hdd
      simp only [List.length_cons] at *
      omega

theorem collapseLoop_no_double : ∀ (fuel : Nat) (s : List Char), s.length ≤ fuel →
    hasDoubleSpace (collapseLoop fuel s) = false
  | 0, s, h => by
    have : s = [] := List.length_eq_zero.mp (Nat.le_zero.mp h)
    subst this
    simp [collapseLoop, hasDoubleSpace]
  | fuel + 1, s, h => by
    rw [collapseLoop]
    by_cases hdd : hasDoubleSpace s = true
    · rw [if_pos hdd]
      exact collapseLoop_no_double fuel (collapseOnce s)
        (by have := collapseOnce_length_lt s hdd; omega)
    · rw [if_neg hdd]
      exact Bool.not_eq_true _ ▸ hdd

theorem collapseRuns_collapseLoop : ∀ (fuel : Nat) (s : List Char),
    collapseRuns (collapseLoop fuel s) = collapseRuns s
  | 0, s => rfl
  | fuel + 1, s => by
    rw [collapseLoop]
    by_cases hdd : hasDoubleSpace s = true
    · rw [if_pos hdd, collapseRuns_collapseLoop fuel (collapseOnce s),
        collapseRuns_collapseOnce]
    · rw [if_neg hdd]

theorem collapseRuns_of_no_double : ∀ s : List Char, hasDoubleSpace s = false →
    collapseRuns s = s
  | [], _ => collapseRuns_nil
  | [c], _ => by
    by_cases hc : c = ' '
    · subst hc
      rw [collapseRuns_cons_space]
      simp [collapseRuns_nil]
    · rw [collapseRuns_cons_ne c hc, collapseRuns_nil]
  | c₁ :: c₂ :: rest, h => by
    rw [hasDoubleSpace, Bool.or_eq_false_iff] at h
    by_cases hc : c₁ = ' '
    · subst hc
      have hc₂ : ¬ c₂ = ' ' := by
        intro hc₂
        subst hc₂
        simp at h
      rw [collapseRuns_cons_space, List.dropWhile_cons_of_neg (by simpa using hc₂)]
      rw [collapseRuns_of_no_double (c₂ :: rest) h.2]
    · rw [collapseRuns_cons_ne c₁ hc]
      rw [collapseRuns_of_no_double (c₂ :: rest) h.2]

theorem collapseLoop_eq_collapseRuns (fuel : Nat) (s : List Char) (h : s.length ≤ fuel) :
    collapseLoop fuel s = collapseRuns s := by
  have h1 := collapseRuns_of_no_double _ (collapseLoop_no_double fuel s h)
  rw [← h1, collapseRuns_collapseLoop]

/-! ### The normal-form theorem for `_normalize_string` -/

theorem normalize_eq_canon (s : List Char) : normalizeChars s = canonChars s := by
  by_cases hs : s = []
  · subst hs
    simp [normalizeChars, canonChars, pyStrip, pyLstrip, collapseRuns_nil]
  · simp only [normalizeChars, hs, if_false, ite_false]
    rw [and_replace_chain, ws_replace_chain]
    rw [collapseLoop_eq_collapseRuns _ _ (Nat.le_succ _)]
    have key : SpaceEq
        (pyStrip ((collapseOnce ((s.map pyLower).flatMap andFold)).flatMap wsFold))
        (pyStrip (((s.map pyLower).flatMap andFold).flatMap wsFold)) :=
      ((spaceEq_collapseOnce ((s.map pyLower).flatMap andFold)).symm.flatMap_wsFold).strip
    rw [canonChars]
    exact key.collapseRuns_congr

/-! ### Lemmas: characters and edges of the canonical form -/

theorem pyLower_idem (c : Char) : pyLower (pyLower c) = pyLower c := by
  unfold pyLower Char.toLower
  by_cases h : Char.toNat c ≥ 65 ∧ Char.toNat c ≤ 90
  · rw [if_pos h]
    obtain ⟨h1, h2⟩ := h
    set n := Char.toNat c with hn
    interval_cases n <;> decide
  · rw [if_neg h, if_neg h]

theorem mem_collapseRuns : ∀ (s : List Char) (c : Char), c ∈ collapseRuns s → c ∈ s
  | [], c, h => by rw [collapseRuns_nil] at h; cases h
  | d :: rest, c, h => by
    by_cases hd : d = ' '
    · subst hd
      rw [collapseRuns_cons_space] at h
      rcases List.mem_cons.mp h with h1 | h1
      · exact h1 ▸ List.mem_cons_self _ _
      · exact List.mem_cons_of_mem _
          ((List.dropWhile_sublist _).subset (mem_collapseRuns _ c h1))
    · rw [collapseRuns_cons_ne d hd] at h
      rcases List.mem_cons.mp h with h1 | h1
      · exact h1 ▸ List.mem_cons_self _ _
      · exact List.mem_cons_of_mem _ (mem_collapseRuns rest c h1)
termination_by s => s.length
decreasing_by
  · simpa using Nat.lt_succ_of_le (List.dropWhile_sublist _).length_le
  · simp

theorem mem_pyStrip {s : List Char} {c : Char} (h : c ∈ pyStrip s) : c ∈ s := by
  unfold pyStrip pyLstrip at h
  rw [List.mem_reverse] at h
  have h1 := (List.dropWhile_sublist _).subset h
  rw [List.mem_reverse] at h1
  exact (List.dropWhile_sublist _).subset h1

theorem flatMap_eq_self {f : Char → List Char} {s : List Char}
    (h : ∀ c ∈ s, f c = [c]) : s.flatMap f = s := by
  induction s with
  | nil => rfl
  | cons c rest ih =>
    rw [List.flatMap_cons, h c (List.mem_cons_self _ _),
      ih (fun d hd => h d (List.mem_cons_of_mem _ hd))]
    rfl

theorem map_eq_self {f : Char → Char} {s : List Char}
    (h : ∀ c ∈ s, f c = c) : s.map f = s := by
  induction s with
  | nil => rfl
  | cons c rest ih =>
    rw [List.map_cons, h c (List.mem_cons_self _ _),
      ih (fun d hd => h d (List.mem_cons_of_mem _ hd))]

theorem wsFold_mem {c d : Char} (h : c ∈ wsFold d) : c = ' ' ∨ c = d := by
  unfold wsFold at h
  split_ifs at h <;> simp at h <;> simp [h]

theorem andFold_mem {c d : Char} (h : c ∈ andFold d) :
    c = 'a' ∨ c = 'n' ∨ c = 'd' ∨ c = d := by
  unfold andFold at h
  split_ifs at h <;> simp at h <;> tauto

theorem andFold_no_amp {c d : Char} (h : c ∈ andFold d) (hc : c = '&' ∨ c = '+') : False := by
  unfold andFold at h
  split_ifs at h with h1 h2
  · rcases hc with rfl | rfl <;> simp at h
  · rcases hc with rfl | rfl <;> simp at h
  · simp at h
    subst h
    rcases hc with rfl | rfl
    · exact h1 rfl
    · exact h2 rfl

theorem wsFold_no_ws {c d : Char} (h : c ∈ wsFold d)
    (hc : c = '\t' ∨ c = '\n' ∨ c = '\r') : False := by
  unfold wsFold at h
  split_ifs at h with h1 h2 h3
  · simp at h; subst h; rcases hc with h | h | h <;> exact absurd h (by decide)
  · simp at h; subst h; rcases hc with h | h | h <;> exact absurd h (by decide)
  · simp at h; subst h; rcases hc with h | h | h <;> exact absurd h (by decide)
  · simp at h
    subst h
    rcases hc with rfl | rfl | rfl
    · exact h1 rfl
    · exact h2 rfl
    · exact h3 rfl

/-- Every character of the canonical form is lowercase-stable, is not
`&`, `+`, tab, newline or carriage return, and comes from `and`, a space,
or a lowered input character. -/
theorem mem_canonChars {s : List Char} {c : Char} (h : c ∈ canonChars s) :
    c = 'a' ∨ c = 'n' ∨ c = 'd' ∨ c = ' ' ∨ ∃ d, c = pyLower d := by
  unfold canonChars at h
  have h1 := mem_pyStrip (mem_collapseRuns _ _ h)
  rcases List.mem_flatMap.mp h1 with ⟨d, hd, hcd⟩
  rcases wsFold_mem hcd with h2 | h2
  · exact Or.inr (Or.inr (Or.inr (Or.inl h2)))
  · subst h2
    rcases List.mem_flatMap.mp hd with ⟨e, he, hde⟩
    rcases andFold_mem hde with h3 | h3 | h3 | h3
    · exact Or.inl h3
    · exact Or.inr (Or.inl h3)
    · exact Or.inr (Or.inr (Or.inl h3))
    · subst h3
      rcases List.mem_map.mp he with ⟨x, _, hx⟩
      exact Or.inr (Or.inr (Or.inr (Or.inr ⟨x, hx.symm⟩)))

theorem canon_lower_fixed {s : List Char} {c : Char} (h : c ∈ canonChars s) :
    pyLower c = c := by
  rcases mem_canonChars h with h1 | h1 | h1 | h1 | ⟨d, h1⟩ <;> subst h1
  · decide
  · decide
  · decide
  · decide
  · exact pyLower_idem d

/-- `&`, `+`, tab, newline and carriage return never survive into the
canonical form. -/
theorem canon_no_special {s : List Char} {c : Char} (h : c ∈ canonChars s) :
    c ≠ '&' ∧ c ≠ '+' ∧ c ≠ '\t' ∧ c ≠ '\n' ∧ c ≠ '\r' := by
  unfold canonChars at h
  have h1 := mem_pyStrip (mem_collapseRuns _ _ h)
  rcases List.mem_flatMap.mp h1 with ⟨d, hd, hcd⟩
  have hamp : c ≠ '&' ∧ c ≠ '+' := by
    constructor <;> rintro rfl
    · rcases wsFold_mem hcd with h2 | h2
      · exact absurd h2 (by decide)
      · rcases List.mem_flatMap.mp hd with ⟨e, _, hde⟩
        exact andFold_no_amp (h2 ▸ hde) (Or.inl rfl)
    · rcases wsFold_mem hcd with h2 | h2
      · exact absurd h2 (by decide)
      · rcases List.mem_flatMap.mp hd with ⟨e, _, hde⟩
        exact andFold_no_amp (h2 ▸ hde) (Or.inr rfl)
  refine ⟨hamp.1, hamp.2, ?_, ?_, ?_⟩ <;> rintro rfl
  · exact wsFold_no_ws hcd (Or.inl rfl)
  · exact wsFold_no_ws hcd (Or.inr (Or.inl rfl))
  · exact wsFold_no_ws hcd (Or.inr (Or.inr rfl))

theorem head?_dropWhile {p : Char → Bool} {l : List Char} {c : Char}
    (h : (l.dropWhile p).head? = some c) : p c = false := by
  have h1 := List.head?_dropWhile_not p l
  rw [h] at h1
  exact h1

theorem getLast?_cons_of_ne_nil {c : Char} {l : List Char} (h : l ≠ []) :
    (c :: l).getLast? = l.getLast? := by
  cases l with
  | nil => exact absurd rfl h
  | cons d rest => exact List.getLast?_cons_cons

theorem getLast?_dropWhile_of_ne_nil {p : Char → Bool} {l : List Char}
    (h : l.dropWhile p ≠ []) : (l.dropWhile p).getLast? = l.getLast? := by
  conv_rhs => rw [← List.takeWhile_append_dropWhile (p := p) (l := l)]
  rw [List.getLast?_append]
  cases hd : (l.dropWhile p).getLast? with
  | none =>
    exact absurd (List.getLast?_eq_none_iff.mp hd) h
  | some c => simp

theorem collapseRuns_ne_nil : ∀ {s : List Char}, s ≠ [] → collapseRuns s ≠ [] := by
  intro s hs
  cases s with
  | nil => exact absurd rfl hs
  | cons c rest =>
    by_cases hc : c = ' '
    · subst hc; rw [collapseRuns_cons_space]; simp
    · rw [collapseRuns_cons_ne c hc]; simp

theorem collapseRuns_head? (s : List Char) : (collapseRuns s).head? = s.head? := by
  cases s with
  | nil => rw [collapseRuns_nil]
  | cons c rest =>
    by_cases hc : c = ' '
    · subst hc; rw [collapseRuns_cons_space]; rfl
    · rw [collapseRuns_cons_ne c hc]; rfl

theorem collapseRuns_getLast? : ∀ (s : List Char) (c : Char), c ≠ ' ' →
    s.getLast? = some c → (collapseRuns s).getLast? = some c
  | [], c, _, h => by simp at h
  | d :: rest, c, hc, h => by
    by_cases hd : d = ' '
    · subst hd
      rw [collapseRuns_cons_space]
      have hrest : rest ≠ [] := by
        rintro rfl
        simp at h
        exact hc h.symm
      have hlast : rest.getLast? = some c := by
        rw [getLast?_cons_of_ne_nil hrest] at h
        exact h
      have hdw : rest.dropWhile (fun d => d = ' ') ≠ [] := by
        intro hnil
        have hall := List.dropWhile_eq_nil_iff.mp hnil
        have := hall c (List.mem_of_getLast?_eq_some hlast)
        exact hc (by simpa using this)
      have h2 : (rest.dropWhile (fun d => d = ' ')).getLast? = some c := by
        rw [getLast?_dropWhile_of_ne_nil hdw]
        exact hlast
      rw [getLast?_cons_of_ne_nil (collapseRuns_ne_nil hdw)]
      exact collapseRuns_getLast? _ c hc h2
    · rw [collapseRuns_cons_ne d hd]
      cases hrest : rest with
      | nil =>
        subst hrest
        simp at h ⊢
        rw [collapseRuns_nil]
        simpa using h
      | cons e rest' =>
        have hrne : rest ≠ [] := by rw [hrest]; simp
        rw [getLast?_cons_of_ne_nil hrne] at h
        rw [← hrest, getLast?_cons_of_ne_nil (collapseRuns_ne_nil hrne)]
        exact collapseRuns_getLast? rest c hc h
termination_by s => s.length
decreasing_by
  · simpa using Nat.lt_succ_of_le (List.dropWhile_sublist _).length_le
  · simp

theorem pyStrip_head? {s : List Char} {c : Char} (h : (pyStrip s).head? = some c) :
    c ∉ stripChars := by
  unfold pyStrip at h
  rw [List.head?_reverse] at h
  have hne : (pyLstrip s).reverse.dropWhile (fun c => c ∈ stripChars) ≠ [] := by
    intro hnil
    rw [hnil] at h
    simp at h
  rw [getLast?_dropWhile_of_ne_nil hne, List.getLast?_reverse] at h
  have := head?_dropWhile (p := fun c => c ∈ stripChars) (l := s) h
  simpa using this

theorem pyStrip_getLast? {s : List Char} {c : Char} (h : (pyStrip s).getLast? = some c) :
    c ∉ stripChars := by
  unfold pyStrip at h
  rw [List.getLast?_reverse] at h
  have := head?_dropWhile (p := fun c => c ∈ stripChars) h
  simpa using this

theorem pyStrip_eq_self {s : List Char}
    (hh : ∀ c, s.head? = some c → c ∉ stripChars)
    (hl : ∀ c, s.getLast? = some c → c ∉ stripChars) : pyStrip s = s := by
  have h1 : pyLstrip s = s := by
    unfold pyLstrip
    cases hs : s with
    | nil => rfl
    | cons c rest =>
      have := hh c (by rw [hs]; rfl)
      rw [List.dropWhile_cons_of_neg (by simpa using this)]
  unfold pyStrip
  rw [h1]
  cases hs : s.reverse with
  | nil =>
    have : s = [] := by simpa using congrArg List.reverse hs
    simp [this]
  | cons c rest =>
    have hc : s.getLast? = some c := by
      rw [← List.head?_reverse, hs]; rfl
    have hmem := hl c hc
    rw [List.dropWhile_cons_of_neg (by simpa using hmem), ← hs, List.reverse_reverse]

theorem collapseRuns_no_double : ∀ s : List Char, hasDoubleSpace (collapseRuns s) = false
  | [] => by rw [collapseRuns_nil]; rfl
  | c :: rest => by
    by_cases hc : c = ' '
    · subst hc
      rw [collapseRuns_cons_space]
      cases hcr : collapseRuns (rest.dropWhile (fun d => d = ' ')) with
      | nil => rfl
      | cons e l =>
        have he : ¬ e = ' ' := by
          have h1 : (collapseRuns (rest.dropWhile (fun d => d = ' '))).head? = some e := by
            rw [hcr]; rfl
          rw [collapseRuns_head? _] at h1
          have := head?_dropWhile (p := fun d => d = ' ') h1
          simpa using this
        rw [hasDoubleSpace]
        have h2 := collapseRuns_no_double (rest.dropWhile (fun d => d = ' '))
        rw [hcr] at h2
        simp [he, h2]
    · rw [collapseRuns_cons_ne c hc]
      cases hcr : collapseRuns rest with
      | nil => rfl
      | cons e l =>
        rw [hasDoubleSpace]
        have h2 := collapseRuns_no_double rest
        rw [hcr] at h2
        simp [hc, h2]
termination_by s => s.length
decreasing_by
  · simpa using Nat.lt_succ_of_le (List.dropWhile_sublist _).length_le
  · simp

theorem collapseRuns_idem (s : List Char) :
    collapseRuns (collapseRuns s) = collapseRuns s :=
  collapseRuns_of_no_double _ (collapseRuns_no_double s)

/-! ### Idempotence of the normalisation -/

theorem canonChars_idem (s : List Char) : canonChars (canonChars s) = canonChars s := by
  have hmap : (canonChars s).map pyLower = canonChars s :=
    map_eq_self (fun c hc => canon_lower_fixed hc)
  have hand : (canonChars s).flatMap andFold = canonChars s := by
    refine flatMap_eq_self (fun c hc => ?_)
    have h := canon_no_special hc
    simp [andFold, h.1, h.2.1]
  have hws : (canonChars s).flatMap wsFold = canonChars s := by
    refine flatMap_eq_self (fun c hc => ?_)
    have h := canon_no_special hc
    simp [wsFold, h.2.2.1, h.2.2.2.1, h.2.2.2.2]
  have hstrip : pyStrip (canonChars s) = canonChars s := by
    refine pyStrip_eq_self (fun c hc => ?_) (fun c hc => ?_)
    · rw [canonChars, collapseRuns_head?] at hc
      exact pyStrip_head? hc
    · rw [canonChars] at hc
      cases hgl : (pyStrip (((s.map pyLower).flatMap andFold).flatMap wsFold)).getLast? with
      | none =>
        have hnil : pyStrip (((s.map pyLower).flatMap andFold).flatMap wsFold) = [] :=
          List.getLast?_eq_none_iff.mp hgl
        rw [hnil, collapseRuns_nil] at hc
        simp at hc
      | some d =>
        have hdns : d ∉ stripChars := pyStrip_getLast? hgl
        have hdnsp : d ≠ ' ' := by
          intro h
          exact hdns (by rw [h]; simp [stripChars])
        have hpres := collapseRuns_getLast? _ d hdnsp hgl
        rw [hc] at hpres
        have hdc : c = d := by simpa using hpres
        rw [hdc]
        exact hdns
  rw [canonChars, hmap, hand, hws, hstrip]
  rw [show canonChars s = collapseRuns (pyStrip (((s.map pyLower).flatMap andFold).flatMap wsFold)) from rfl]
  exact collapseRuns_idem _

/-! ### Invariance of the canonical form under the metadata variations -/

theorem SpaceEq.append_left : ∀ (a : List Char) {x y : List Char},
    SpaceEq x y → SpaceEq (a ++ x) (a ++ y)
  | [], _, _, h => h
  | c :: a', x, y, h => by
    by_cases hc : c = ' '
    · subst hc
      have h1 : ∀ z : List Char, (' ' :: (a' ++ z) : List Char) = spaces 1 ++ (a' ++ z) := by
        intro z; simp [spaces]
      rw [List.cons_append, List.cons_append, h1 x, h1 y]
      exact .run 0 0 (SpaceEq.append_left a' h)
    · rw [List.cons_append, List.cons_append]
      exact .char c hc (SpaceEq.append_left a' h)

theorem stripChars_lower_fixed : ∀ c ∈ stripChars, pyLower c = c := by decide

theorem stripChars_andFold : ∀ c ∈ stripChars, andFold c = [c] := by decide

theorem canon_caseFold {s t : List Char} (h : s.map pyLower = t.map pyLower) :
    canonChars s = canonChars t := by
  unfold canonChars
  rw [h]

theorem canon_ampPlus (u v : List Char) :
    canonChars (u ++ '&' :: v) = canonChars (u ++ '+' :: v) := by
  unfold canonChars
  have hsplit : ∀ (c : Char) (w : List Char), (c :: w : List Char) = [c] ++ w := fun _ _ => rfl
  rw [hsplit '&' v, hsplit '+' v]
  simp only [List.map_append, List.flatMap_append]
  have hamp : ((['&'].map pyLower).flatMap andFold).flatMap wsFold = ['a', 'n', 'd'] := by decide
  have hplus : ((['+'].map pyLower).flatMap andFold).flatMap wsFold = ['a', 'n', 'd'] := by decide
  rw [hamp, hplus]

theorem canon_ampAnd (u v : List Char) :
    canonChars (u ++ '&' :: v) = canonChars (u ++ 'a' :: 'n' :: 'd' :: v) := by
  unfold canonChars
  have h1 : (('&' :: v : List Char)) = ['&'] ++ v := rfl
  have h2 : (('a' :: 'n' :: 'd' :: v : List Char)) = ['a', 'n', 'd'] ++ v := rfl
  rw [h1, h2]
  simp only [List.map_append, List.flatMap_append]
  have hamp : ((['&'].map pyLower).flatMap andFold).flatMap wsFold = ['a', 'n', 'd'] := by decide
  have hand : ((['a', 'n', 'd'].map pyLower).flatMap andFold).flatMap wsFold = ['a', 'n', 'd'] := by
    decide
  rw [hamp, hand]

theorem ws_flatMap_spaces {w : List Char}
    (hws : ∀ c ∈ w, c = ' ' ∨ c = '\t' ∨ c = '\n' ∨ c = '\r') :
    ((w.map pyLower).flatMap andFold).flatMap wsFold = spaces w.length := by
  induction w with
  | nil => simp [spaces]
  | cons c rest ih =>
    have hc := hws c (List.mem_cons_self _ _)
    have hrest := fun d hd => hws d (List.mem_cons_of_mem _ hd)
    have hcomp : ((pyLower c :: []).flatMap andFold).flatMap wsFold = [' '] := by
      rcases hc with rfl | rfl | rfl | rfl <;> decide
    simp only [List.map_cons, List.flatMap_cons, List.flatMap_append]
    have hc1 : (andFold (pyLower c)).flatMap wsFold = [' '] := by
      simpa using hcomp
    rw [hc1, ih hrest]
    simp [spaces, List.replicate_succ]

theorem canon_wsRun (u w v : List Char) (hw : w ≠ [])
    (hws : ∀ c ∈ w, c = ' ' ∨ c = '\t' ∨ c = '\n' ∨ c = '\r') :
    canonChars (u ++ w ++ v) = canonChars (u ++ ' ' :: v) := by
  unfold canonChars
  have hsplit : ((' ' :: v : List Char)) = [' '] ++ v := rfl
  rw [hsplit]
  simp only [List.map_append, List.flatMap_append]
  rw [ws_flatMap_spaces hws, ws_flatMap_spaces (w := [' ']) (by decide)]
  obtain ⟨k, hk⟩ : ∃ k, w.length = k + 1 := by
    cases w with
    | nil => exact absurd rfl hw
    | cons c rest => exact ⟨rest.length, rfl⟩
  rw [hk]
  have hlen1 : ([' '] : List Char).length = 0 + 1 := rfl
  rw [hlen1]
  refine SpaceEq.collapseRuns_congr (SpaceEq.strip ?_)
  simp only [List.append_assoc]
  exact SpaceEq.append_left _ (.run k 0 (SpaceEq.refl _))

theorem pyStrip_drop_left {p' a : List Char} (hp : ∀ c ∈ p', c ∈ stripChars) :
    pyStrip (p' ++ a) = pyStrip a := by
  unfold pyStrip pyLstrip
  rw [List.dropWhile_append_of_pos (by intro c hc; simpa using hp c hc)]

theorem pyStrip_drop_right {a q' : List Char} (hq : ∀ c ∈ q', c ∈ stripChars) :
    pyStrip (a ++ q') = pyStrip a := by
  unfold pyStrip pyLstrip
  by_cases hnil : a.dropWhile (fun c => decide (c ∈ stripChars)) = []
  · have ha : ∀ c ∈ a, c ∈ stripChars := by
      intro c hc
      simpa using List.dropWhile_eq_nil_iff.mp hnil c hc
    have ha' : ∀ c ∈ a, (fun c => decide (c ∈ stripChars)) c = true := by
      intro c hc; simpa using ha c hc
    have hq' : ∀ c ∈ q', (fun c => decide (c ∈ stripChars)) c = true := by
      intro c hc; simpa using hq c hc
    rw [List.dropWhile_append_of_pos ha', List.dropWhile_eq_nil_iff.mpr hq', hnil]
  · rw [List.dropWhile_append]
    rw [if_neg (by simpa [List.isEmpty_iff] using hnil)]
    rw [List.reverse_append]
    have hq'rev : ∀ c ∈ q'.reverse, (fun c => decide (c ∈ stripChars)) c = true := by
      intro c hc
      rw [List.mem_reverse] at hc
      simpa using hq c hc
    rw [List.dropWhile_append_of_pos hq'rev]

theorem flatMap_strip_chars {p : List Char} (hp : ∀ c ∈ p, c ∈ stripChars) :
    ∀ c ∈ ((p.map pyLower).flatMap andFold).flatMap wsFold, c ∈ stripChars := by
  intro c hc
  rcases List.mem_flatMap.mp hc with ⟨d, hd, hcd⟩
  rcases List.mem_flatMap.mp hd with ⟨e, he, hde⟩
  rcases List.mem_map.mp he with ⟨x, hx, hex⟩
  have hxs := hp x hx
  have hex' : e = x := by rw [← hex, stripChars_lower_fixed x hxs]
  subst hex'
  have hde' : d = e := by
    have := stripChars_andFold e hxs
    rw [this] at hde
    simpa using hde
  subst hde'
  rcases wsFold_mem hcd with rfl | rfl
  · simp [stripChars]
  · exact hxs

theorem canon_edges (p s q : List Char) (hp : ∀ c ∈ p, c ∈ stripChars)
    (hq : ∀ c ∈ q, c ∈ stripChars) : canonChars (p ++ s ++ q) = canonChars s := by
  unfold canonChars
  simp only [List.map_append, List.flatMap_append]
  rw [pyStrip_drop_right (flatMap_strip_chars hq), pyStrip_drop_left (flatMap_strip_chars hp)]

theorem variantStep_canon {a b : List Char} (h : VariantStep a b) :
    canonChars a = canonChars b := by
  cases h with
  | caseFold s' t' hst => exact canon_caseFold hst
  | ampPlus u' v' => exact canon_ampPlus u' v'
  | ampAnd u' v' => exact canon_ampAnd u' v'
  | wsRun u' w' v' hw hws => exact canon_wsRun u' w' v' hw hws
  | edges p' s' q' hp hq => exact canon_edges _ _ _ hp hq

theorem normalizeChars_variant {a b : List Char}
    (h : Relation.EqvGen VariantStep a b) : normalizeChars a = normalizeChars b := by
  rw [normalize_eq_canon, normalize_eq_canon]
  induction h with
  | rel x y hxy => exact variantStep_canon hxy
  | refl x => rfl
  | symm x y _ ih => exact ih.symm
  | trans x y z _ _ ih1 ih2 => exact ih1.trans ih2

/-! ### Claim theorems -/

/-- C7: the string normalisation of `_normalize_string` is idempotent:
normalising an already-normalised string returns it unchanged. -/
theorem normalize_idempotent (x : String) :
    normalizeString (normalizeString x) = normalizeString x := by
  unfold normalizeString
  have h : (String.mk (normalizeChars x.data)).data = normalizeChars x.data := rfl
  rw [h, normalize_eq_canon, normalize_eq_canon, canonChars_idem]

/-- C8: two recognition results whose artist, title and album each differ
only by letter case, `&` vs `+` vs `and`, whitespace runs against a
single space, or leading/trailing punctuation/whitespace, and whose
durations agree, produce equal fingerprints (for the same hash). -/
theorem fingerprint_variant_invariant (hash : String → String) (r₁ r₂ : RecognitionResult)
    (hart : MetadataVariant r₁.artist r₂.artist)
    (htit : MetadataVariant r₁.title r₂.title)
    (halb : MetadataVariant (r₁.album.getD "") (r₂.album.getD ""))
    (hdur : r₁.duration = r₂.duration) :
    createFingerprint hash r₁ = createFingerprint hash r₂ := by
  unfold createFingerprint fingerprintData
  rw [normalizeChars_variant hart, normalizeChars_variant htit,
    normalizeChars_variant halb, hdur]

/-- Witness for C8 at a concrete variant pair: `A & B` vs `a + b`. -/
theorem fingerprint_variant_invariant_witness :
    createFingerprint (fun s => s) ⟨true, 1, "test", "A & B", "Song", none, some 30⟩ =
      createFingerprint (fun s => s) ⟨true, 1, "test", "a + b", "Song", none, some 30⟩ := by
  apply fingerprint_variant_invariant
  · show Relation.EqvGen VariantStep ("A & B" : String).data ("a + b" : String).data
    have h1 : Relation.EqvGen VariantStep ("A & B" : String).data ("a & b" : String).data :=
      Relation.EqvGen.rel _ _ (VariantStep.caseFold _ _ (by decide))
    have h2 : Relation.EqvGen VariantStep ("a & b" : String).data ("a + b" : String).data := by
      have hstep := VariantStep.ampPlus ['a', ' '] [' ', 'b']
      exact Relation.EqvGen.rel _ _ hstep
    exact Relation.EqvGen.trans _ _ _ h1 h2
  · exact Relation.EqvGen.refl _
  · exact Relation.EqvGen.refl _
  · rfl

theorem scanSimilar_eq_firstQualifying (cfg : DetectorConfig) (ratio : String → String → ℚ)
    (now : ℤ) (r : RecognitionResult) (fp : String) : ∀ l : List HistRow,
    scanSimilar cfg ratio now r fp l =
      match firstQualifying cfg ratio now r l with
      | some s => ⟨true, calculateSimilarity ratio r.artist r.title s.artist s.title,
          some (now - s.scrobbledAt), some (s.artist, s.title), some fp⟩
      | none => ⟨false, 0, none, none, some fp⟩
  | [] => rfl
  | s :: rest => by
    rw [scanSimilar, firstQualifying]
    by_cases hold : s.scrobbledAt < now - cfg.timeWindow
    · rw [if_pos hold, List.find?_cons_of_neg _ (by simp [hold]; omega)]
      exact scanSimilar_eq_firstQualifying cfg ratio now r fp rest
    · rw [if_neg hold]
      by_cases hsim : cfg.similarityThreshold ≤
          calculateSimilarity ratio r.artist r.title s.artist s.title
      · rw [List.find?_cons_of_pos _ (by simp [hsim]; omega)]
        simp [hsim]
      · rw [List.find?_cons_of_neg _ (by simp [hsim])]
        simp only [if_neg hsim]
        exact scanSimilar_eq_firstQualifying cfg ratio now r fp rest

/-- C3: with no exact fingerprint hit, `is_duplicate` scans the recent
history (most recent first), skips entries outside the time window, and
returns the first candidate whose `0.7*title + 0.3*artist` similarity
reaches the threshold as a duplicate whose confidence is that
similarity; otherwise it returns non-duplicate with the fingerprint
attached. -/
theorem fuzzy_first_qualifying (cfg : DetectorConfig) (ratio : String → String → ℚ)
    (hash : String → String) (now : ℤ) (db : DBState) (r : RecognitionResult)
    (hen : cfg.enabled = true) (hs : r.success = true)
    (ha : r.artist ≠ "") (ht : r.title ≠ "")
    (hnoexact : findDuplicate now (createFingerprint hash r) db = none) :
    isDuplicate cfg ratio hash now db r =
      match firstQualifying cfg ratio now r (getRecentScrobbles 100 db) with
      | some s => ⟨true, calculateSimilarity ratio r.artist r.title s.artist s.title,
          some (now - s.scrobbledAt), some (s.artist, s.title),
          some (createFingerprint hash r)⟩
      | none => ⟨false, 0, none, none, some (createFingerprint hash r)⟩ := by
  unfold isDuplicate isDuplicateExc
  rw [if_neg (by simp [hen]), if_neg (by simp [hs, ha, ht])]
  dsimp only
  rw [hnoexact]
  dsimp only [checkSimilarTracksExc]
  rw [scanSimilar_eq_firstQualifying]

/-- Witness for C3: an empty history yields non-duplicate with the
fingerprint attached. -/
theorem fuzzy_first_qualifying_witness :
    isDuplicate ⟨true, 900, 9 / 10⟩ (fun _ _ => 0) (fun s => s) 1000 DBState.empty
        ⟨true, 1, "test", "Artist", "Song", none, none⟩ =
      ⟨false, 0, none, none, some (createFingerprint (fun s => s)
        ⟨true, 1, "test", "Artist", "Song", none, none⟩)⟩ := by
  have h := fuzzy_first_qualifying ⟨true, 900, 9 / 10⟩ (fun _ _ => 0) (fun s => s) 1000
    DBState.empty ⟨true, 1, "test", "Artist", "Song", none, none⟩
    rfl rfl (by decide) (by decide) rfl
  rw [h]
  rfl

/-- C9: when the detector is disabled, or the recognition is
unsuccessful, or the artist or title is empty, `is_duplicate` answers
non-duplicate with no fingerprint, without consulting the store at all
(the result is the same for arbitrary, even failing, store behaviour). -/
theorem guards_nondup_no_lookup (cfg : DetectorConfig) (ratio : String → String → ℚ)
    (hash : String → String) (now : ℤ) (findDup : String → Except DBError (Option DupRow))
    (stats : Except DBError Unit) (recents : Except DBError (List HistRow))
    (r : RecognitionResult)
    (h : cfg.enabled = false ∨ r.success = false ∨ r.artist = "" ∨ r.title = "") :
    isDuplicateExc cfg ratio hash now findDup stats recents r =
      .ok ⟨false, 0, none, none, none⟩ := by
  unfold isDuplicateExc
  by_cases hen : cfg.enabled = false
  · rw [if_pos hen]
  · rw [if_neg hen]
    have hrest : r.success = false ∨ r.artist = "" ∨ r.title = "" := by
      rcases h with h | h
      · exact absurd h hen
      · exact h
    rw [if_pos hrest]

/-- Witness for C9: disabled detector with an everywhere-failing store
still answers non-duplicate without a fingerprint. -/
theorem guards_nondup_no_lookup_witness :
    isDuplicateExc ⟨false, 900, 9 / 10⟩ (fun _ _ => 0) (fun s => s) 0
        (fun _ => .error ⟨"store down"⟩) (.error ⟨"store down"⟩) (.error ⟨"store down"⟩)
        ⟨true, 1, "test", "Artist", "Song", none, none⟩ =
      .ok ⟨false, 0, none, none, none⟩ :=
  guards_nondup_no_lookup _ _ _ _ _ _ _ _ (Or.inl rfl)

/-- C4: inserting a successful result's fingerprint with `add_track` and
immediately re-checking the same result (while the record is unexpired)
reports an exact duplicate: confidence 1.0, `timeSinceLast` equal to now
minus the stored timestamp, and the stored artist/title as the match. -/
theorem insert_then_check (cfg : DetectorConfig) (ratio : String → String → ℚ)
    (hash : String → String) (now₀ now₁ : ℤ) (db : DBState) (r : RecognitionResult)
    (hen : cfg.enabled = true) (hs : r.success = true)
    (ha : r.artist ≠ "") (ht : r.title ≠ "")
    (hunexp : now₁ < now₀ + cfg.timeWindow) :
    isDuplicate cfg ratio hash now₁ (addTrack cfg hash now₀ db r).1 r =
      ⟨true, 1, some (now₁ - now₀), some (r.artist, r.title),
        some (createFingerprint hash r)⟩ := by
  have hadd : (addTrack cfg hash now₀ db r).1 =
      addDuplicateEntry now₀ cfg.timeWindow (createFingerprint hash r)
        r.artist r.title now₀ r.confidence db := by
    unfold addTrack
    rw [if_neg (by simp [hen, hs])]
  rw [hadd]
  unfold isDuplicate isDuplicateExc
  rw [if_neg (by simp [hen]), if_neg (by simp [hs, ha, ht])]
  dsimp only
  have hfind : findDuplicate now₁ (createFingerprint hash r)
      (addDuplicateEntry now₀ cfg.timeWindow (createFingerprint hash r)
        r.artist r.title now₀ r.confidence db) =
      some ⟨createFingerprint hash r, r.artist, r.title, now₀, r.confidence,
        now₀ + cfg.timeWindow⟩ := by
    unfold findDuplicate addDuplicateEntry
    exact List.find?_cons_of_pos _ (by simp; omega)
  rw [hfind]

/-- Witness for C4 at a concrete result and empty store. -/
theorem insert_then_check_witness :
    isDuplicate ⟨true, 900, 9 / 10⟩ (fun _ _ => 0) (fun s => s) 150
        (addTrack ⟨true, 900, 9 / 10⟩ (fun s => s) 100 DBState.empty
          ⟨true, 1, "test", "Artist", "Song", none, none⟩).1
        ⟨true, 1, "test", "Artist", "Song", none, none⟩ =
      ⟨true, 1, some 50, some ("Artist", "Song"),
        some (createFingerprint (fun s => s)
          ⟨true, 1, "test", "Artist", "Song", none, none⟩)⟩ := by
  have h := insert_then_check ⟨true, 900, 9 / 10⟩ (fun _ _ => 0) (fun s => s) 100 150
    DBState.empty ⟨true, 1, "test", "Artist", "Song", none, none⟩
    rfl rfl (by decide) (by decide) (by decide)
  rw [h]
  rfl

/-- C1 (counterexample): when the exact-fingerprint lookup raises, the
`is_duplicate` check propagates the store error instead of returning a
non-duplicate answer. -/
theorem store_error_counterexample :
    isDuplicateExc ⟨true, 900, 9 / 10⟩ (fun _ _ => 0) (fun s => s) 0
        (fun _ => .error ⟨"store down"⟩) (.ok ()) (.ok [])
        ⟨true, 1, "test", "Artist", "Song", none, none⟩ =
      .error ⟨"store down"⟩ := rfl

/-- C1 (amended): a store error raised during the duplicate check — by
the exact lookup, the stats read, or the recent-history read — is
propagated to the caller by `is_duplicate`; the method has no fail-open
handler. -/
theorem store_error_propagates (cfg : DetectorConfig) (ratio : String → String → ℚ)
    (hash : String → String) (now : ℤ) (findDup : String → Except DBError (Option DupRow))
    (stats : Except DBError Unit) (recents : Except DBError (List HistRow))
    (r : RecognitionResult) (e : DBError)
    (hen : cfg.enabled = true) (hs : r.success = true)
    (ha : r.artist ≠ "") (ht : r.title ≠ "")
    (h : findDup (createFingerprint hash r) = .error e ∨
      (findDup (createFingerprint hash r) = .ok none ∧ stats = .error e) ∨
      (findDup (createFingerprint hash r) = .ok none ∧ stats = .ok () ∧
        recents = .error e)) :
    isDuplicateExc cfg ratio hash now findDup stats recents r = .error e := by
  unfold isDuplicateExc
  rw [if_neg (by simp [hen]), if_neg (by simp [hs, ha, ht])]
  dsimp only
  rcases h with h | ⟨h1, h2⟩ | ⟨h1, h2, h3⟩
  · rw [h]
  · rw [h1]
    unfold checkSimilarTracksExc
    rw [h2]
  · rw [h1]
    unfold checkSimilarTracksExc
    rw [h2, h3]

/-- Witness for the amended C1 at a concrete failing lookup. -/
theorem store_error_propagates_witness :
    isDuplicateExc ⟨true, 900, 9 / 10⟩ (fun _ _ => 0) (fun s => s) 5
        (fun _ => .error ⟨"no such table"⟩) (.ok ()) (.ok [])
        ⟨true, 1, "test", "Artist", "Song", none, none⟩ =
      .error ⟨"no such table"⟩ :=
  store_error_propagates _ _ _ _ _ _ _ _ _ rfl rfl (by decide) (by decide) (Or.inl rfl)

/-- C5: `queue_scrobble` rejects (returning `false`, with the store
untouched — no eviction) whenever the queue already holds
`maxQueueSize` entries; otherwise a valid candidate is persisted as a
new entry appended in creation order (FIFO). -/
theorem enqueue_bounded_fifo (cfg : ScrobblerConfig) (now : ℤ) (db : DBState)
    (r : RecognitionResult) (ts : Option ℤ) :
    (cfg.maxQueueSize ≤ getQueueSize db → queueScrobble cfg now db r ts = (db, false)) ∧
    (r.success = true → r.artist ≠ "" → r.title ≠ "" → getQueueSize db < cfg.maxQueueSize →
      queueScrobble cfg now db r ts =
        ({ db with
            scrobbleQueue := db.scrobbleQueue ++
              [⟨db.nextId, r.artist, r.title, r.album,
                some (match ts with | some t => if t = 0 then now else t | none => now),
                r.duration, 0, now⟩],
            nextId := db.nextId + 1 }, true)) := by
  constructor
  · intro hfull
    unfold queueScrobble
    by_cases hs : r.success = false
    · rw [if_pos hs]
    · rw [if_neg hs]
      by_cases hat : r.artist = "" ∨ r.title = ""
      · rw [if_pos hat]
      · rw [if_neg hat, if_pos hfull]
  · intro hs ha ht hroom
    unfold queueScrobble
    rw [if_neg (by simp [hs]), if_neg (by simp [ha, ht]), if_neg (by omega)]
    rfl

/-- Witness for C5: a full queue of size 1 rejects without change, and
an empty queue accepts by appending. -/
theorem enqueue_bounded_fifo_witness :
    (queueScrobble ⟨30, 1, 5⟩ 10
        ⟨[], [⟨1, "a", "t", none, some 3, none, 0, 3⟩], [], 2⟩
        ⟨true, 1, "test", "Artist", "Song", none, none⟩ none =
      (⟨[], [⟨1, "a", "t", none, some 3, none, 0, 3⟩], [], 2⟩, false)) ∧
    (queueScrobble ⟨30, 1, 5⟩ 10 DBState.empty
        ⟨true, 1, "test", "Artist", "Song", none, none⟩ none =
      (⟨[], [⟨1, "Artist", "Song", none, some 10, none, 0, 10⟩], [], 2⟩, true)) := by
  constructor
  · exact (enqueue_bounded_fifo _ _ _ _ _).1 (by decide)
  · have h := (enqueue_bounded_fifo ⟨30, 1, 5⟩ 10 DBState.empty
      ⟨true, 1, "test", "Artist", "Song", none, none⟩ none).2
      rfl (by decide) (by decide) (by decide)
    rw [h]
    rfl

/-- C6 (counterexample): an entry with a known duration of exactly `0`
below the 30-second minimum is not treated as a permanent validation
failure — the sink is called (second component `true`) and the attempt
succeeds. -/
theorem zero_duration_validated_counterexample :
    attemptScrobble ⟨30, 1000, 5⟩ .ok ⟨1, "Artist", "Song", none, some 100, some 0, 0, 100⟩ =
      (⟨true, some 1, none, false⟩, true) := by
  decide

/-- C6 (amended): an entry with a missing artist or title, or with a
known nonzero duration below the minimum play time, fails without the
sink being called, is classified as permanent (`should_retry = false`),
and one drain cycle then removes it from the queue regardless of its
retry count. -/
theorem invalid_entry_dropped (cfg : ScrobblerConfig) (sink : SinkOutcome) (now : ℤ)
    (sinkFor : QueueRow → SinkOutcome) (db : DBState) (entry : QueueRow)
    (hval : entry.artist = "" ∨ entry.title = "" ∨
      (∃ d, entry.duration = some d ∧ d ≠ 0 ∧ d < cfg.minPlayTime)) :
    (attemptScrobble cfg sink entry).1.success = false ∧
    (attemptScrobble cfg sink entry).1.shouldRetry = false ∧
    (attemptScrobble cfg sink entry).2 = false ∧
    (db.scrobbleQueue = [entry] →
      (processScrobbleQueue cfg true now sinkFor db).scrobbleQueue = []) := by
  have hatt : ∀ sk : SinkOutcome, attemptScrobble cfg sk entry =
      (⟨false, none, some "Missing artist or title", false⟩, false) ∨
      attemptScrobble cfg sk entry = (⟨false, none, some "Track too short", false⟩, false) := by
    intro sk
    unfold attemptScrobble
    by_cases hat : entry.artist = "" ∨ entry.title = ""
    · left
      rw [if_pos hat]
    · right
      rcases hval with h | h | ⟨d, hd, hdz, hdlt⟩
      · exact absurd (Or.inl h) hat
      · exact absurd (Or.inr h) hat
      · rw [if_neg hat, if_pos (by rw [hd]; simp [hdz, hdlt])]
  have hres : (attemptScrobble cfg sink entry).1.success = false ∧
      (attemptScrobble cfg sink entry).1.shouldRetry = false ∧
      (attemptScrobble cfg sink entry).2 = false := by
    rcases hatt sink with h | h <;> rw [h] <;> exact ⟨rfl, rfl, rfl⟩
  refine ⟨hres.1, hres.2.1, hres.2.2, ?_⟩
  intro hq
  unfold processScrobbleQueue getScrobbleQueue
  rw [if_neg (by simp), hq]
  show (processEntry cfg now sinkFor db entry).scrobbleQueue = []
  unfold processEntry
  rcases hatt (sinkFor entry) with h | h <;>
    rw [h] <;>
    simp only [Bool.false_and, if_neg (by simp : ¬ (false = true))] <;>
    unfold removeFromScrobbleQueue <;>
    simp [hq]

/-- Witness for the amended C6: a 10-second track (below the 30-second
minimum) fails permanently without a sink call and is dropped by the
drain cycle. -/
theorem invalid_entry_dropped_witness :
    (attemptScrobble ⟨30, 1000, 5⟩ .ok
        ⟨1, "Artist", "Song", none, some 100, some 10, 3, 100⟩).1.shouldRetry = false ∧
    (processScrobbleQueue ⟨30, 1000, 5⟩ true 200 (fun _ => .ok)
        ⟨[], [⟨1, "Artist", "Song", none, some 100, some 10, 3, 100⟩], [], 2⟩).scrobbleQueue =
      [] := by
  have h := invalid_entry_dropped ⟨30, 1000, 5⟩ .ok 200 (fun _ => .ok)
    ⟨[], [⟨1, "Artist", "Song", none, some 100, some 10, 3, 100⟩], [], 2⟩
    ⟨1, "Artist", "Song", none, some 100, some 10, 3, 100⟩
    (Or.inr (Or.inr ⟨10, rfl, by decide, by decide⟩))
  exact ⟨h.2.1, h.2.2.2 rfl⟩

/-- C2 (counterexample): with `maxRetries = 5` and five consecutive
transient (network) failures, the entry is still queued afterwards with
`retryCount = 5` — it is not yet dropped after the fifth failed
attempt. -/
theorem five_transient_failures_counterexample :
    ((fun db => processScrobbleQueue ⟨30, 1000, 5⟩ true 50 (fun _ => .exc "network") db)^[5]
        ⟨[], [⟨1, "Artist", "Song", none, some 3, none, 0, 3⟩], [], 2⟩).scrobbleQueue =
      [⟨1, "Artist", "Song", none, some 3, none, 5, 3⟩] := by
  decide

/-- C2 (amended): under a transient failure, a drain cycle on a
single-entry queue increments `retryCount` by exactly 1 while
`retryCount < maxRetries`, and removes the entry once
`retryCount ≥ maxRetries` — so with `maxRetries = 5` the entry survives
the first five failed attempts and is dropped on the sixth. -/
theorem transient_retry_step (cfg : ScrobblerConfig) (now : ℤ)
    (sinkFor : QueueRow → SinkOutcome) (db : DBState) (entry : QueueRow) (msg : String)
    (hq : db.scrobbleQueue = [entry]) (ha : entry.artist ≠ "") (ht : entry.title ≠ "")
    (hd : ¬ ∃ d, entry.duration = some d ∧ d ≠ 0 ∧ d < cfg.minPlayTime)
    (hsink : sinkFor entry = .exc msg) :
    processScrobbleQueue cfg true now sinkFor db =
      if entry.retryCount < cfg.maxRetries
      then { db with scrobbleQueue := [{ entry with retryCount := entry.retryCount + 1 }] }
      else { db with scrobbleQueue := [] } := by
  unfold processScrobbleQueue getScrobbleQueue
  rw [if_neg (by simp), hq]
  show processEntry cfg now sinkFor db entry = _
  unfold processEntry
  have hatt : attemptScrobble cfg (sinkFor entry) entry = (⟨false, none, some msg, true⟩, true) := by
    unfold attemptScrobble
    rw [if_neg (by simp [ha, ht]), if_neg ?hdur, hsink]
    case hdur =>
      cases hdo : entry.duration with
      | none => simp
      | some d =>
        simp only [decide_eq_true_eq, Bool.and_eq_true, not_and]
        intro hdz hdlt
        exact hd ⟨d, hdo, by simpa using hdz, by simpa using hdlt⟩
  rw [hatt]
  by_cases hretry : entry.retryCount < cfg.maxRetries
  · rw [if_pos hretry]
    simp only [Bool.true_and, decide_eq_true_eq]
    rw [if_neg (by simp), if_pos hretry]
    unfold incrementRetryCount
    rw [hq]
    simp
  · rw [if_neg hretry]
    simp only [Bool.true_and, decide_eq_true_eq]
    rw [if_neg (by simp), if_neg hretry]
    unfold removeFromScrobbleQueue
    rw [hq]
    simp

/-- Witness for the amended C2: one transient failure on a fresh entry
bumps its retry count to 1; one on an exhausted entry empties the
queue. -/
theorem transient_retry_step_witness :
    (processScrobbleQueue ⟨30, 1000, 5⟩ true 50 (fun _ => .exc "network")
        ⟨[], [⟨1, "Artist", "Song", none, some 3, none, 0, 3⟩], [], 2⟩ =
      ⟨[], [⟨1, "Artist", "Song", none, some 3, none, 1, 3⟩], [], 2⟩) ∧
    (processScrobbleQueue ⟨30, 1000, 5⟩ true 50 (fun _ => .exc "network")
        ⟨[], [⟨1, "Artist", "Song", none, some 3, none, 5, 3⟩], [], 2⟩ =
      ⟨[], [], [], 2⟩) := by
  constructor
  · have h := transient_retry_step ⟨30, 1000, 5⟩ 50 (fun _ => .exc "network")
      ⟨[], [⟨1, "Artist", "Song", none, some 3, none, 0, 3⟩], [], 2⟩
      ⟨1, "Artist", "Song", none, some 3, none, 0, 3⟩ "network"
      rfl (by decide) (by decide) (by rintro ⟨d, hd, _, _⟩; cases hd) rfl
    rw [h]
    rfl
  · have h := transient_retry_step ⟨30, 1000, 5⟩ 50 (fun _ => .exc "network")
      ⟨[], [⟨1, "Artist", "Song", none, some 3, none, 5, 3⟩], [], 2⟩
      ⟨1, "Artist", "Song", none, some 3, none, 5, 3⟩ "network"
      rfl (by decide) (by decide) (by rintro ⟨d, hd, _, _⟩; cases hd) rfl
    rw [h]
    rfl

/-- C10: a duration of exactly `0` behaves as an absent duration: the
fingerprint omits the duration bucket (equalling the no-duration
fingerprint), and a queue entry with duration `0` bypasses the minimum
play-time validation and is submitted to the sink. -/
theorem duration_zero_as_absent (hash : String → String) :
    (∀ (su : Bool) (cf : ℚ) (pv ar ti : String) (al : Option String),
      createFingerprint hash ⟨su, cf, pv, ar, ti, al, some 0⟩ =
        createFingerprint hash ⟨su, cf, pv, ar, ti, al, none⟩) ∧
    (∀ (cfg : ScrobblerConfig) (sink : SinkOutcome) (entry : QueueRow),
      entry.duration = some 0 → entry.artist ≠ "" → entry.title ≠ "" →
      (attemptScrobble cfg sink entry).2 = true) := by
  constructor
  · intro su cf pv ar ti al
    unfold createFingerprint fingerprintData
    simp
  · intro cfg sink entry hdur ha ht
    unfold attemptScrobble
    rw [if_neg (by simp [ha, ht]), if_neg (by rw [hdur]; simp)]
    cases sink <;> rfl

/-- Witness for C10: duration `0` and no duration share a fingerprint,
and a zero-duration entry reaches the sink. -/
theorem duration_zero_as_absent_witness :
    (createFingerprint (fun s => s) ⟨true, 1, "test", "Artist", "Song", none, some 0⟩ =
      createFingerprint (fun s => s) ⟨true, 1, "test", "Artist", "Song", none, none⟩) ∧
    (attemptScrobble ⟨30, 1000, 5⟩ .ok
        ⟨1, "Artist", "Song", none, some 100, some 0, 0, 100⟩).2 = true := by
  have h := duration_zero_as_absent (fun s => s)
  exact ⟨h.1 true 1 "test" "Artist" "Song" none,
    h.2 ⟨30, 1000, 5⟩ .ok ⟨1, "Artist", "Song", none, some 100, some 0, 0, 100⟩
      rfl (by decide) (by decide)⟩

end Vinyl
